import Mathlib

/-!
Verification development for the `whisper-server` subtitle service
(`youtube-live-subtitles`).  The Python source under `whisper-server/` is
shallowly embedded below: pure text algorithms become Lean functions on
`List Char` / `String`, the stateful task manager and HTTP handlers become
explicit state-passing functions, and float times become exact rationals
(`ℚ`), with Python's `round(x, 2)` idealized as exact rounding of `100*x`
to the nearest integer.  External collaborators (hashing, the spaCy NLP
model, the recognizer, the LLM) are passed in as explicit parameters or
concrete data, mirroring the spec's black-box boundaries.
-/

namespace WhisperServer

/-! ## Basic Python string helpers (on `List Char`)

`pyStrip` models Python `str.strip()` (whitespace at both ends);
`pySplitSpace` models `str.split(' ')` (keeps empty fields);
`lowerCh` models `str.lower()` (Lean lowers ASCII only; every string the
repository compares case-insensitively is Chinese or ASCII). -/

def isPyWs (c : Char) : Bool := c.isWhitespace

def pyStrip (l : List Char) : List Char :=
  ((l.dropWhile isPyWs).reverse.dropWhile isPyWs).reverse

def pyStripS (s : String) : String := String.mk (pyStrip s.toList)

def lowerCh (c : Char) : Char := c.toLower

def lowerS (s : String) : String := String.mk (s.toList.map lowerCh)

def pySplitSpace : List Char → List (List Char)
  | [] => [[]]
  | c :: t =>
    match pySplitSpace t with
    | [] => [[]]
    | h :: hs => if c = ' ' then [] :: h :: hs else (c :: h) :: hs

/-- Python `needle == hay[:len(needle)]` on char lists. -/
def leadMatch : List Char → List Char → Bool
  | [], _ => true
  | _ :: _, [] => false
  | a :: as, b :: bs => a == b && leadMatch as bs

/-- Python `needle in hay` (substring containment) on char lists. -/
def containsSeq (needle : List Char) : List Char → Bool
  | [] => needle.isEmpty
  | h :: t => leadMatch needle (h :: t) || containsSeq needle t

def containsStr (needle hay : String) : Bool :=
  containsSeq needle.toList hay.toList

/-! ## `core/utils.py`: `robust_split_by_length`

The Python function diverges when `max_len = 0` (its while loops make no
progress), so the embedding guards the chunking recursion with `0 < ml`;
all theorems below assume `1 ≤ maxLen` (the repository always calls it
with `max_len = 25`). -/

/-- The `while len(line) > max_len: result.append(line[:max_len]); line = line[max_len:]`
loop followed by `if line: result.append(line)`. -/
def hardCut (ml : Nat) (l : List Char) : List (List Char) :=
  if h : 0 < ml ∧ ml < l.length then
    l.take ml :: hardCut ml (l.drop ml)
  else if l.isEmpty then [] else [l]
termination_by l.length
decreasing_by
  simp only [List.length_drop]
  omega

/-- The English word-accumulation loop of `robust_split_by_length`
(`current_line` / `lines`). -/
def buildLines (ml : Nat) : List (List Char) → List Char → List (List Char)
  | [], current => if current.isEmpty then [] else [current]
  | w :: ws, current =>
    if current.isEmpty then buildLines ml ws w
    else if current.length + 1 + w.length ≤ ml then
      buildLines ml ws (current ++ ' ' :: w)
    else current :: buildLines ml ws w

/-- The post-pass `for line in lines: if len(line) > max_len: <force split> else append`. -/
def forcePass (ml : Nat) (lines : List (List Char)) : List (List Char) :=
  lines.flatMap fun l => if ml < l.length then hardCut ml l else [l]

/-- `robust_split_by_length(text, max_len, lang)` on char lists. -/
def robustCore (text : List Char) (ml : Nat) (lang : String) : List (List Char) :=
  if text.length ≤ ml then [text]
  else if lang = "en" then forcePass ml (buildLines ml (pySplitSpace text) [])
  else hardCut ml text

/-- `robust_split_by_length` at the `String` level (source signature). -/
def robustSplitByLength (text : String) (maxLen : Nat) (lang : String) : List String :=
  (robustCore text.toList maxLen lang).map String.mk

/-! ### Length bound for the fallback splitter -/

theorem hardCut_le (ml : Nat) (hml : 1 ≤ ml) (l : List Char) :
    ∀ c ∈ hardCut ml l, c.length ≤ ml := by
  intro c hc
  induction l using hardCut.induct ml with
  | case1 l h ih =>
    rw [hardCut, dif_pos h] at hc
    rcases List.mem_cons.mp hc with rfl | hmem
    · simpa using Nat.le_refl ml
    · exact ih hmem
  | case2 l h h2 =>
    rw [hardCut, dif_neg h, if_pos h2] at hc
    exact absurd hc (List.not_mem_nil c)
  | case3 l h h2 =>
    rw [hardCut, dif_neg h, if_neg h2] at hc
    rcases List.mem_singleton.mp hc with rfl
    rcases Decidable.not_and_iff_or_not.mp h with h' | h'
    · omega
    · omega

theorem forcePass_le (ml : Nat) (hml : 1 ≤ ml) (lines : List (List Char)) :
    ∀ c ∈ forcePass ml lines, c.length ≤ ml := by
  intro c hc
  rcases List.mem_flatMap.mp hc with ⟨l, _, hcl⟩
  by_cases h : ml < l.length
  · rw [if_pos h] at hcl
    exact hardCut_le ml hml l c hcl
  · rw [if_neg h] at hcl
    rcases List.mem_singleton.mp hcl with rfl
    omega

theorem robustCore_le (text : List Char) (ml : Nat) (lang : String) (hml : 1 ≤ ml) :
    ∀ c ∈ robustCore text ml lang, c.length ≤ ml := by
  intro c hc
  unfold robustCore at hc
  by_cases h1 : text.length ≤ ml
  · rw [if_pos h1] at hc
    rcases List.mem_singleton.mp hc with rfl
    exact h1
  · rw [if_neg h1] at hc
    by_cases h2 : lang = "en"
    · rw [if_pos h2] at hc
      exact forcePass_le ml hml _ c hc
    · rw [if_neg h2] at hc
      exact hardCut_le ml hml text c hc

/-! ## `core/utils.py`: `split_text_by_spacy`

The spaCy pipeline is an external collaborator: a `Doc` is modelled as the
concrete list of tokens it produces, each carrying the attributes the
source reads (`text`, trailing whitespace, `pos_`, `dep_`, `is_punct`).
`Span.text` (`doc[a:b].text`) is the original text of the span: the
tokens' `text_with_ws` joined, without the last token's trailing
whitespace. -/

structure SpacyToken where
  text : String
  ws : String
  pos : String
  dep : String
  isPunct : Bool
deriving DecidableEq, Repr, Inhabited

/-- `doc[a:b].text` for the token sublist `doc[a:b]`. -/
def spanText : List SpacyToken → String
  | [] => ""
  | [t] => t.text
  | t :: rest => t.text ++ t.ws ++ spanText rest

/-- `doc[a:b]` as a token sublist. -/
def docSlice (doc : List SpacyToken) (a b : Nat) : List SpacyToken :=
  (doc.drop a).take (b - a)

/-- `is_valid_phrase(phrase)`: a subject-like token and a verb-like token. -/
def isValidPhrase (phrase : List SpacyToken) : Bool :=
  (phrase.any fun t => t.dep == "nsubj" || t.dep == "nsubjpass" || t.pos == "PRON") &&
  (phrase.any fun t => t.pos == "VERB" || t.pos == "AUX")

/-- `analyze_comma(start, doc, token)` for the comma at index `i`. -/
def analyzeComma (start : Nat) (doc : List SpacyToken) (i : Nat) : Bool :=
  let leftPhrase := docSlice doc (max start (i - 9)) i
  let rightPhrase := docSlice doc (i + 1) (min doc.length (i + 10))
  let suitable := isValidPhrase rightPhrase
  let leftWords := leftPhrase.filter fun t => !t.isPunct
  let rightWords := rightPhrase.takeWhile fun t => !t.isPunct
  if leftWords.length ≤ 3 ∨ rightWords.length ≤ 3 then false else suitable

/-- One step of the token scan of `split_text_by_spacy`: state is
(`start`, accumulated `sentences`).  The comma test appends (and advances
`start`) only when the stripped part beats `max_len * 0.3`
(`len(part) > max_len * 0.3`, exact rational arithmetic in place of the
source's float). -/
def spacyScanStep (doc : List SpacyToken) (maxLen : Nat) (st : Nat × List String)
    (i : Nat) : Nat × List String :=
  let token := doc.getD i default
  let st1 :=
    if token.text = "," ∨ token.text = "，" then
      if analyzeComma st.1 doc i then
        let part := pyStripS (spanText (docSlice doc st.1 i))
        if 10 * part.length > 3 * maxLen then (i + 1, st.2 ++ [part]) else st
      else st
    else st
  if token.text ∈ ["。", "！", "？", ".", "!", "?", ";", "；"] then
    let part := pyStripS (spanText (docSlice doc st1.1 (i + 1)))
    (i + 1, st1.2 ++ [part])
  else st1

/-- The raw sentence list produced by the token scan, including the final
`if start < len(doc): sentences.append(doc[start:].text.strip())`. -/
def spacySentences (doc : List SpacyToken) (maxLen : Nat) : List String :=
  let st := (List.range doc.length).foldl (spacyScanStep doc maxLen) (0, [])
  if st.1 < doc.length then
    st.2 ++ [pyStripS (spanText (docSlice doc st.1 doc.length))]
  else st.2

/-- The post-processing merge loop of `split_text_by_spacy`, verbatim from
the source, including `current += s if not current else (current + " " + s)`:
when `current` is non-empty the conditional expression evaluates to
`current + " " + s` and `+=` appends it to `current` again. -/
def spacyMergeStep (maxLen : Nat) (lang : String) (st : List String × String)
    (s : String) : List String × String :=
  if s = "" then st
  else
    let current := st.2
    if maxLen < current.length + s.length then
      if current ≠ "" then (st.1 ++ [current], s)
      else if maxLen < s.length then (st.1 ++ robustSplitByLength s maxLen lang, "")
      else (st.1 ++ [s], "")
    else (st.1, current ++ (if current = "" then s else current ++ " " ++ s))

/-- `split_text_by_spacy(text, nlp, max_len, lang)` given the token list the
NLP model produces for `text`. -/
def splitTextBySpacy (doc : List SpacyToken) (maxLen : Nat) (lang : String) :
    List String :=
  let st := (spacySentences doc maxLen).foldl (spacyMergeStep maxLen lang) ([], "")
  let finalSentences := if st.2 ≠ "" then st.1 ++ [st.2] else st.1
  (finalSentences.map pyStripS).filter fun s => s ≠ ""

/-! ## `core/utils.py`: `get_video_id`

The single pattern
`(?:v=|\/videos\/|embed\/|youtu.be\/|\/v\/|\/e\/|watch\?v=|&v=)([^#\&\?\n]*)`
is embedded directly: `re.search` scans start positions left to right and,
at each position, tries the alternatives in order (the `.` in `youtu.be`
is a wildcard).  The capture group takes every following character that is
not in `#&?\n`.  The md5 fallback (`hashlib`, an external library) is a
parameter `md5hex`. -/

/-- One alternative of the pattern: literal chars, `none` is the wildcard. -/
def altMatch : List (Option Char) → List Char → Option (List Char)
  | [], rest => some rest
  | _ :: _, [] => none
  | p :: ps, c :: cs =>
    match p with
    | none => altMatch ps cs
    | some a => if a = c then altMatch ps cs else none

def lits (s : String) : List (Option Char) := s.toList.map some

def videoIdAlts : List (List (Option Char)) :=
  [lits "v=", lits "/videos/", lits "embed/",
   lits "youtu" ++ [none] ++ lits "be/",
   lits "/v/", lits "/e/", lits "watch?v=", lits "&v="]

def firstAlt (alts : List (List (Option Char))) (s : List Char) :
    Option (List Char) :=
  match alts with
  | [] => none
  | a :: as =>
    match altMatch a s with
    | some rest => some rest
    | none => firstAlt as s

def searchAlts (alts : List (List (Option Char))) : List Char → Option (List Char)
  | [] => firstAlt alts []
  | c :: t =>
    match firstAlt alts (c :: t) with
    | some rest => some rest
    | none => searchAlts alts t

def videoIdStop : List Char := ['#', '&', '?', '\n']

def get_video_id (md5hex : String → String) (url : String) : String :=
  match searchAlts videoIdAlts url.toList with
  | some rest => String.mk (rest.takeWhile fun c => !videoIdStop.contains c)
  | none => (md5hex url).take 11

/-! ## `core/task_manager.py`: hallucination filter

`LLM_HALLUCINATION_BLACKLIST` and the two judgments applied (identically)
in `_transcribe_locally` and `_transcribe_via_api`:
`text_clean = part.replace(" ","").replace(",","").replace(".","")
.replace("!","").replace("?","").lower()`, exact blacklist match with
`duration > 5`, else distinctive-fragment containment with
`duration > 10 and len(text_clean) < 35`.  Durations are exact rationals. -/

def LLM_HALLUCINATION_BLACKLIST : List String :=
  ["点赞", "订阅", "转发", "打赏", "支持明镜", "点点栏目", "谢看", "多谢看",
   "字幕由", "制作", "欢迎订阅", "谢谢观看", "观看更多", "关注我的频道"]

def specificHallucinations : List String := ["支持明镜", "点点栏目"]

def removeSpacesS (s : String) : String :=
  String.mk (s.toList.filter fun c => c ≠ ' ')

/-- The `text_clean` preparation. -/
def stripPunctLower (s : String) : String :=
  String.mk ((s.toList.filter fun c => c ∉ [' ', ',', '.', '!', '?']).map lowerCh)

def isExactBlacklisted (textClean : String) : Bool :=
  LLM_HALLUCINATION_BLACKLIST.any fun term => textClean == lowerS (removeSpacesS term)

def isSpecificPattern (textClean : String) : Bool :=
  specificHallucinations.any fun term => containsStr term textClean

/-- The `filtered` decision (`if` / `elif` shape preserved). -/
def isHallucination (part : String) (duration : ℚ) : Bool :=
  let textClean := stripPunctLower part
  if isExactBlacklisted textClean && decide (5 < duration) then true
  else if isSpecificPattern textClean &&
      (decide (10 < duration) && decide (textClean.length < 35)) then true
  else false

/-! ## `core/task_manager.py`: `_transcribe_locally`

Recognizer output (segments with word-level timestamps) is concrete input
data; times are exact rationals and `round(x, 2)` is idealized to exact
rounding of `100*x` to the nearest integer.  `split_text` is a parameter
(its result is the only thing the alignment reads); the OpenCC converter
is modelled as absent (its import is optional in the source). -/

structure SWord where
  start : ℚ
  stop : ℚ
  word : String
deriving DecidableEq

structure SSeg where
  start : ℚ
  stop : ℚ
  text : String
  words : List SWord
deriving DecidableEq

structure SubtitleLine where
  start : ℚ
  stop : ℚ
  text : String
deriving DecidableEq

/-- Python `round(x, 2)`. -/
def round2 (q : ℚ) : ℚ := (round (100 * q) : ℤ) / 100

/-- `part.replace(" ", "").lower()`. -/
def partClean (s : String) : String := lowerS (removeSpacesS s)

/-- The inner `while word_idx < len(words)` loop of `_transcribe_locally`:
consume recognizer words until the accumulated stripped text reaches the
target length.  Returns (`part_start`, `last_end`, remaining words). -/
def consumeWords (target : Nat) : List SWord → ℚ → Nat → Option ℚ →
    Option ℚ × ℚ × List SWord
  | [], lastEnd, _, ps => (ps, lastEnd, [])
  | w :: rest, lastEnd, acc, ps =>
    let wClean := lowerS (pyStripS w.word)
    if wClean.length = 0 then consumeWords target rest lastEnd acc ps
    else
      let ps' := some (ps.getD (max w.start lastEnd))
      let acc' := acc + wClean.length
      if target ≤ acc' then (ps', w.stop, rest)
      else consumeWords target rest w.stop acc' ps'

/-- The `for part in parts` loop: time a part, bump a degenerate
`end <= start` to `start + 0.1`, drop hallucinations, emit the line. -/
def alignGo : List String → List SWord → ℚ → List SubtitleLine
  | [], _, _ => []
  | p :: parts, ws, lastEnd =>
    let pc := partClean p
    if pc.length = 0 then alignGo parts ws lastEnd
    else
      let r := consumeWords pc.length ws lastEnd 0 none
      let sT := round2 (r.1.getD r.2.1)
      let e0 := round2 r.2.1
      let eT := if e0 ≤ sT then sT + 1/10 else e0
      let rest := alignGo parts r.2.2 r.2.1
      if isHallucination p (eT - sT) then rest else ⟨sT, eT, p⟩ :: rest

/-- The per-segment body of `_transcribe_locally`: skip empty text, split,
then either pass the segment through unchanged (`len(parts) <= 1 or not
segment.words`) or run the word-level alignment. -/
def segLines (split : String → List String) (seg : SSeg) : List SubtitleLine :=
  let text := pyStripS seg.text
  if text = "" then []
  else
    let parts := split text
    if parts.length ≤ 1 ∨ seg.words = [] then
      [⟨round2 seg.start, round2 seg.stop, text⟩]
    else alignGo parts seg.words seg.start

/-- `_transcribe_locally`'s subtitle list over all recognizer segments. -/
def transcribeLocally (split : String → List String) (segs : List SSeg) :
    List SubtitleLine :=
  (segs.map (segLines split)).join

/-- Well-formedness of the recognizer's word timestamps relative to the
running `last_end` and the segment's upper bound `hi`: every word is a
non-degenerate interval inside the bound, `last_end` never exceeds an
upcoming word's end, and word ends are non-decreasing. -/
def WordsSt (hi lastEnd : ℚ) (ws : List SWord) : Prop :=
  lastEnd ≤ hi ∧
  (∀ w ∈ ws, w.start ≤ w.stop ∧ w.start ≤ hi ∧ w.stop ≤ hi ∧ lastEnd ≤ w.stop) ∧
  ws.Pairwise fun u v => u.stop ≤ v.stop

/-- Well-formed recognizer segment: non-degenerate, with word timestamps
inside the segment window and non-decreasing word ends. -/
def SegOK (seg : SSeg) : Prop :=
  seg.start ≤ seg.stop ∧
  (∀ w ∈ seg.words, w.start ≤ w.stop ∧ seg.start ≤ w.start ∧ w.stop ≤ seg.stop) ∧
  seg.words.Pairwise fun u v => u.stop ≤ v.stop

/-! ## Final-tier cache (`_save_cache` / `_get_cached_subtitles` /
`db/postgres_db.py`) and the final-cache hit check of `_process_task`

A retrieved record is a Python dict that may lack keys, so config fields
are `Option`s; `_process_task` reads them with the defaults
`local` / `general` / `whisper`.  `_save_cache` writes a local JSON
document carrying every field and mirrors it to PostgreSQL, whose
`subtitles` table only keeps `video_id, language, target_lang, subtitles`
(`upsert_subtitles` / `get_by_video_id`).  `_get_cached_subtitles` reads
the local document first, then the PostgreSQL row. -/

structure CacheDoc where
  videoId : String
  language : Option String
  service : Option String
  domain : Option String
  engine : Option String
  targetLang : Option String
  subtitles : List SubtitleLine
deriving DecidableEq

structure PgRow where
  videoId : String
  language : Option String
  targetLang : Option String
  subtitles : List SubtitleLine
deriving DecidableEq

/-- The exact-config test of `_process_task` (lines 170-173). -/
def finalCacheHit (service domain engine : String) (targetLang : Option String)
    (doc : CacheDoc) : Bool :=
  service == doc.service.getD "local" &&
  domain == doc.domain.getD "general" &&
  engine == doc.engine.getD "whisper" &&
  targetLang == doc.targetLang

/-- The local JSON document written by `_save_cache`: every config field
is present. -/
def saveCacheDoc (videoId : String) (language : Option String)
    (service domain engine : String) (targetLang : Option String)
    (subs : List SubtitleLine) : CacheDoc :=
  ⟨videoId, language, some service, some domain, some engine, targetLang, subs⟩

/-- `upsert_subtitles`: the PostgreSQL row keeps only
`video_id, language, target_lang, subtitles`, and the write is refused for
a falsy `video_id` or `subtitles`. -/
def pgUpsertRow (d : CacheDoc) : Option PgRow :=
  if d.videoId = "" ∨ d.subtitles = [] then none
  else some ⟨d.videoId, d.language, d.targetLang, d.subtitles⟩

/-- `get_by_video_id` returns the row as a dict: the config keys
`service` / `domain` / `engine` are absent. -/
def pgDocOf (r : PgRow) : CacheDoc :=
  ⟨r.videoId, r.language, none, none, none, r.targetLang, r.subtitles⟩

/-- `_get_cached_subtitles`: local JSON first, then PostgreSQL. -/
def getCachedSubtitles (localDoc : Option CacheDoc) (pg : Option PgRow) :
    Option CacheDoc :=
  match localDoc with
  | some d => some d
  | none => pg.map pgDocOf

/-! ## `_process_task` cache / error flow (network-source path)

The worker flow for a `video_url` task: final-cache check, raw-cache
check, recognition, unconditional `_save_raw_cache`, optional translation,
then the final write or the empty-result error (the raised exception is
caught by `_worker`, which sets the task to `error` with the message).
The recognizer result is input data; translation is a parameter (it is
skipped on an empty list by `if target_lang and subtitles`); the LM-Studio
correction step is modelled as disabled (its env var is unset). -/

structure RawRec where
  videoId : String
  language : Option String
  domain : String
  engine : String
  subtitles : List SubtitleLine
deriving DecidableEq

structure TaskCfg where
  service : String
  domain : String
  engine : String
  targetLang : Option String
deriving DecidableEq

/-- The raw-cache gate (lines 181-182): engine and domain match and the
stored subtitles are non-empty. -/
def rawGate (cfg : TaskCfg) (raw : Option RawRec) : Bool :=
  match raw with
  | none => false
  | some r => r.engine == cfg.engine && r.domain == cfg.domain && !r.subtitles.isEmpty

def finalGate (cfg : TaskCfg) (fin : Option CacheDoc) : Bool :=
  match fin with
  | none => false
  | some c => finalCacheHit cfg.service cfg.domain cfg.engine cfg.targetLang c

inductive ProcStatus where
  | fromCache
  | completed
  | errored (msg : String)
deriving DecidableEq

/-- The message of the exception raised for an empty recognition result
(truncated to its first clause). -/
def emptyResultMsg : String := "Groq/Whisper 未识别到任何有效音频内容"

structure ProcOut where
  status : ProcStatus
  rawWritten : Option RawRec
  finalWritten : Option CacheDoc
deriving DecidableEq

/-- `_process_task` for a network-source task (cache decisions and writes).
When the raw gate hits, the cached subtitles and language are reused and
nothing is written to the raw tier; otherwise the recognizer result is
written to the raw tier unconditionally, before the empty-result check. -/
def processTask (cfg : TaskCfg) (videoId : String) (fin : Option CacheDoc)
    (raw : Option RawRec) (recognized : List SubtitleLine × Option String)
    (translate : List SubtitleLine → List SubtitleLine) : ProcOut :=
  if finalGate cfg fin then ⟨.fromCache, none, none⟩
  else
    let fromRaw : Option (List SubtitleLine × Option String) :=
      match raw with
      | some r =>
        if rawGate cfg (some r) then some (r.subtitles, r.language) else none
      | none => none
    let subs0 := (fromRaw.map Prod.fst).getD recognized.1
    let lang := (fromRaw.map Prod.snd).getD recognized.2
    let rawWr : Option RawRec :=
      match fromRaw with
      | some _ => none
      | none => some ⟨videoId, recognized.2, cfg.domain, cfg.engine, recognized.1⟩
    let subs1 :=
      if cfg.targetLang ≠ none ∧ subs0 ≠ [] then translate subs0 else subs0
    if subs1 ≠ [] then
      ⟨.completed, rawWr,
       some (saveCacheDoc videoId lang cfg.service cfg.domain cfg.engine
         cfg.targetLang subs1)⟩
    else ⟨.errored emptyResultMsg, rawWr, none⟩

/-! ## `api/routes.py`: `/transcribe` and the task manager's in-memory state

A task dict may lack config keys (`update_task` rewrites the whole entry
with only status fields, `add_task` restores them), so config fields are
`Option`s read with the source's `.get` defaults.  The dict store is an
association list where an assignment shadows older entries; the queue is
the list of enqueued task ids.  `uuid.uuid4()` for the no-url path and
md5 for the id fallback are parameters. -/

structure TaskEntry where
  taskId : String
  status : String
  service : Option String
  domain : Option String
  engine : Option String
  targetLang : Option String
  llmCorrection : Option Bool
deriving DecidableEq

structure TMState where
  tasks : List (String × TaskEntry)
  queue : List String
deriving DecidableEq

structure TranscribeRequest where
  videoUrl : Option String
  service : String
  domain : String
  engine : String
  targetLang : Option String
  llmCorrection : Bool
deriving DecidableEq

def setTask (tasks : List (String × TaskEntry)) (k : String) (v : TaskEntry) :
    List (String × TaskEntry) :=
  (k, v) :: tasks

/-- `update_task`: the whole dict entry is replaced; config keys vanish. -/
def updateTaskEntry (taskId status : String) : TaskEntry :=
  ⟨taskId, status, none, none, none, none, none⟩

/-- `add_task`: enqueue, `update_task(..., 'pending', ...)`, then restore
the config keys from the submitted data. -/
def addTask (req : TranscribeRequest) (tid : String) (st : TMState) : TMState :=
  { tasks := setTask st.tasks tid
      ⟨tid, "pending", some req.service, some req.domain, some req.engine,
       req.targetLang, some req.llmCorrection⟩,
    queue := st.queue ++ [tid] }

/-- The config comparison of the `completed` branch of `/transcribe`. -/
def completedConfigMatch (req : TranscribeRequest) (t : TaskEntry) : Bool :=
  req.service == t.service.getD "local" &&
  req.domain == t.domain.getD "general" &&
  req.engine == t.engine.getD "whisper" &&
  req.targetLang == t.targetLang &&
  req.llmCorrection == t.llmCorrection.getD false

/-- The `/transcribe` handler: returns the response's `task_id` and the
new manager state. -/
def transcribeHandler (md5hex : String → String) (uuid : String)
    (req : TranscribeRequest) (st : TMState) : String × TMState :=
  let tid := match req.videoUrl with
    | some u => get_video_id md5hex u
    | none => uuid
  match st.tasks.lookup tid with
  | some t =>
    if t.status = "pending" ∨ t.status = "downloading" ∨ t.status = "transcribing"
    then (tid, st)
    else if t.status = "completed" then
      if completedConfigMatch req t then (t.taskId, st)
      else
        let st1 : TMState :=
          { st with tasks := setTask st.tasks tid (updateTaskEntry tid "pending") }
        (tid, addTask req tid st1)
    else (tid, addTask req tid st)
  | none => (tid, addTask req tid st)

/-! ## Retry loops of `_download_audio` and `_transcribe_via_api`

Both functions run `for attempt in range(3)` around an external call; on
failure they sleep `2 * (attempt + 1)` seconds unless the attempt was the
last, in which case the wrapped fatal error is raised.  The external call
is a function from the attempt index to its outcome; the returned trace
records attempts and sleeps in order. -/

inductive RetryEvent where
  | attempt (i : Nat)
  | sleep (d : Nat)
deriving DecidableEq

/-- The retry skeleton shared by both loops, iterating over the remaining
attempt indices (`List.range maxRetries` at the top call). -/
def retryGo (op : Nat → Except String String) (wrap : String → String) :
    List Nat → List RetryEvent × Except String String
  | [] => ([], .error (wrap ""))
  | [i] =>
    match op i with
    | .ok r => ([.attempt i], .ok r)
    | .error e => ([.attempt i], .error (wrap e))
  | i :: j :: rest =>
    match op i with
    | .ok r => ([.attempt i], .ok r)
    | .error _ =>
      let r := retryGo op wrap (j :: rest)
      (.attempt i :: .sleep (2 * (i + 1)) :: r.1, r.2)

/-- `_download_audio`'s retry loop (`max_retries = 3`); the fatal wrapper
is `音频下载最终失败: <stderr>`. -/
def downloadAudioRetry (op : Nat → Except String String) :
    List RetryEvent × Except String String :=
  retryGo op (fun e => "音频下载最终失败: " ++ e) (List.range 3)

/-- `_transcribe_via_api`'s retry loop (`max_retries = 3`); the loop's
final raise carries the last response/exception detail. -/
def transcribeApiRetry (op : Nat → Except String String) :
    List RetryEvent × Except String String :=
  retryGo op (fun e => "API 最终返回错误: " ++ e) (List.range 3)

/-! ## `_translate_subtitles`: batch loop with faithful/expressive passes

The LLM (`_ask_llm`) is a black box returning `None` on failure or a JSON
dict; it is modelled as a function from the global call index to an
optional association list (key, value).  A pass accepts a response only
when it is a dict with at least as many keys as the batch
(`res and isinstance(res, dict) and len(res) >= len(batch)`); each pass is
the `for attempt in range(2)` loop.  Values are `{"direct"/"free": ...}`
dicts or plain JSON values; `val.get('free') or val.get('direct') or ""`
follows Python truthiness. -/

inductive JVal where
  | obj (free direct : Option String)
  | prim (s : String)
deriving DecidableEq

abbrev LLMDict := List (String × JVal)

structure TSub where
  text : String
  translation : Option String
deriving DecidableEq

/-- Accept a response for a batch of `need` lines. -/
def checkRes (need : Nat) (res : Option LLMDict) : Option LLMDict :=
  match res with
  | none => none
  | some d => if need ≤ d.length then some d else none

/-- The `for attempt in range(2)` loop of one pass, starting at global
call index `n`; returns the accepted dict (if any) and the next index. -/
def passLoop (ask : Nat → Option LLMDict) (need n : Nat) :
    Option LLMDict × Nat :=
  match checkRes need (ask n) with
  | some d => (some d, n + 1)
  | none =>
    match checkRes need (ask (n + 1)) with
    | some d => (some d, n + 2)
    | none => (none, n + 2)

/-- `use_result.get(str(j), {})` then
`val.get('free') or val.get('direct') or ""` (or `str(val)`). -/
def pickTranslation (d : LLMDict) (j : Nat) : String :=
  match d.lookup (toString j) with
  | none => ""
  | some (.prim s) => s
  | some (.obj free direct) =>
    let f := free.getD ""
    if f ≠ "" then f else direct.getD ""

/-- One batch: faithful pass (with its retry), emergency empty fill on
faithful failure, expressive pass (with its retry), map-back. -/
def processBatch (ask : Nat → Option LLMDict) (n : Nat) (batch : List TSub) :
    List TSub × Nat :=
  let faith := passLoop ask batch.length n
  match faith.1 with
  | none => (batch.map fun s => { s with translation := some "" }, faith.2)
  | some f =>
    let express := passLoop ask batch.length faith.2
    let use := express.1.getD f
    ((batch.enum.map fun sj =>
        { sj.2 with translation := some (pickTranslation use sj.1) }), express.2)

/-- `range(0, len(subtitles), batch_size)` chunking (fuel-based: the
source's `range` step raises for `batch_size = 0`; theorems assume
`1 ≤ batchSize`, the source uses 15 or 30). -/
def chunksGo (bs : Nat) : Nat → List TSub → List (List TSub)
  | _, [] => []
  | 0, _ => []
  | fuel + 1, l => l.take bs :: chunksGo bs fuel (l.drop bs)

def chunks (bs : Nat) (l : List TSub) : List (List TSub) :=
  chunksGo bs l.length l

/-- The batch loop of `_translate_subtitles`: batches are processed
sequentially, each appending its lines to the result; returns the final
subtitle list and the total number of LLM calls made. -/
def translateBatches (ask : Nat → Option LLMDict) (bs : Nat)
    (subs : List TSub) : List TSub × Nat :=
  (chunks bs subs).foldl
    (fun acc b =>
      let r := processBatch ask acc.2 b
      (acc.1 ++ r.1, r.2))
    ([], 0)

/-! ## `api/routes.py` `/upload` → `add_upload_task`

Python binds a call's keyword arguments against the callee's declared
parameters and raises `TypeError` before running the body when a keyword
is not declared.  `add_upload_task`'s parameter list and the keyword list
the `/upload` handler passes are taken verbatim from the source. -/

def addUploadTaskParams : List String :=
  ["self", "task_id", "file_content", "service", "api_key", "language",
   "target_lang"]

def uploadCallKeywords : List String :=
  ["service", "api_key", "language", "target_lang", "domain"]

/-- Python keyword binding succeeds iff every keyword names a parameter. -/
def kwBindOk (params kwargs : List String) : Bool :=
  kwargs.all fun k => params.contains k

structure UploadQueueState where
  queue : List String
deriving DecidableEq

/-- The `/upload` handler body after reading the file: the call to
`add_upload_task` either binds (and the body enqueues the task) or raises
`TypeError` before anything is enqueued. -/
def uploadFileHandler (taskId : String) (st : UploadQueueState) :
    Except String (String × UploadQueueState) :=
  if kwBindOk addUploadTaskParams uploadCallKeywords then
    .ok (taskId, ⟨st.queue ++ [taskId]⟩)
  else
    .error "TypeError: add_upload_task() got an unexpected keyword argument: domain"

/-! ## Concrete spaCy documents used as test inputs

`spacyDocHiYo` is the tokenization of `"Hi. Yo."`;
`spacyDocTwoSentences` is the tokenization of `"ab. cd ef gh."`.
Tokens carry the attributes spaCy produces (text, trailing whitespace,
coarse POS, dependency label, punctuation flag). -/

def spacyDocHiYo : List SpacyToken :=
  [⟨"Hi", "", "INTJ", "ROOT", false⟩,
   ⟨".", " ", "PUNCT", "punct", true⟩,
   ⟨"Yo", "", "INTJ", "ROOT", false⟩,
   ⟨".", "", "PUNCT", "punct", true⟩]

def spacyDocTwoSentences : List SpacyToken :=
  [⟨"ab", "", "NOUN", "ROOT", false⟩,
   ⟨".", " ", "PUNCT", "punct", true⟩,
   ⟨"cd", " ", "NOUN", "compound", false⟩,
   ⟨"ef", " ", "NOUN", "compound", false⟩,
   ⟨"gh", "", "NOUN", "ROOT", false⟩,
   ⟨".", "", "PUNCT", "punct", true⟩]

end WhisperServer

namespace WhisperServer

/-! # Claim theorems -/

/-! ## C1: final-tier cache hit requires exact config equality -/

/-- C1 counterexample: a final record stored with `service=groq`,
`domain=news`, `engine=sensevoice` and read back through the PostgreSQL
tier (the local JSON absent) hits a query for the default config
`(local, general, whisper)`, because the PostgreSQL row drops the config
fields and `_process_task` substitutes defaults — so a hit does NOT
require the stored service/domain/engine to equal the query's. -/
theorem C1_pg_roundtrip_false_hit :
    getCachedSubtitles none
        (pgUpsertRow (saveCacheDoc "vid1" (some "zh") "groq" "news" "sensevoice"
          none [⟨0, 1, "line"⟩])) =
      some ⟨"vid1", some "zh", none, none, none, none, [⟨0, 1, "line"⟩]⟩ ∧
    finalCacheHit "local" "general" "whisper" none
      ⟨"vid1", some "zh", none, none, none, none, [⟨0, 1, "line"⟩]⟩ = true ∧
    (saveCacheDoc "vid1" (some "zh") "groq" "news" "sensevoice" none
      [⟨0, 1, "line"⟩]).service ≠ some "local" := by
  refine ⟨by decide, by decide, by decide⟩

/-- C1 (amended): for a record served from the local JSON tier (where
`_save_cache` stores every config field) the hit check is exactly
equality on service, domain, engine and target language — changing any
one field forces a miss — and the stored
`(local, general, whisper, null)` record misses a `target_language=en`
query; a record served from the PostgreSQL tier instead hits exactly the
default config `(local, general, whisper)` with its stored target
language, whatever config it was stored under. -/
theorem C1_final_cache_exact_match :
    (∀ (qs qd qe : String) (qt : Option String) (vid : String)
       (lang : Option String) (s d e : String) (t : Option String)
       (subs : List SubtitleLine),
       finalCacheHit qs qd qe qt (saveCacheDoc vid lang s d e t subs) = true ↔
         (qs = s ∧ qd = d ∧ qe = e ∧ qt = t)) ∧
    finalCacheHit "local" "general" "whisper" (some "en")
      (saveCacheDoc "v" none "local" "general" "whisper" none []) = false ∧
    (∀ (qs qd qe : String) (qt : Option String) (r : PgRow),
       finalCacheHit qs qd qe qt (pgDocOf r) = true ↔
         (qs = "local" ∧ qd = "general" ∧ qe = "whisper" ∧ qt = r.targetLang)) := by
  refine ⟨?_, by decide, ?_⟩
  · intro qs qd qe qt vid lang s d e t subs
    simp [finalCacheHit, saveCacheDoc, Bool.and_eq_true, beq_iff_eq, and_assoc]
  · intro qs qd qe qt r
    simp [finalCacheHit, pgDocOf, Bool.and_eq_true, beq_iff_eq, and_assoc]

/-! ## C2: duplicate submission of an in-flight source is deduplicated -/

/-- C2: submitting a network source whose derived id already has a task in
status `pending`, `downloading` or `transcribing` returns that same
deterministic id and leaves the manager state — in particular the queue —
unchanged (no second job is enqueued). -/
theorem C2_transcribe_dedup_in_flight (md5hex : String → String)
    (uuid url : String) (req : TranscribeRequest) (st : TMState) (t : TaskEntry)
    (hu : req.videoUrl = some url)
    (ht : st.tasks.lookup (get_video_id md5hex url) = some t)
    (hs : t.status = "pending" ∨ t.status = "downloading" ∨
      t.status = "transcribing") :
    (transcribeHandler md5hex uuid req st).1 = get_video_id md5hex url ∧
    (transcribeHandler md5hex uuid req st).2 = st := by
  unfold transcribeHandler
  rw [hu]
  simp only [ht]
  rw [if_pos hs]
  exact ⟨rfl, rfl⟩

/-- C2 witness: a concrete pending task under the id derived from
`https://youtu.be/abc123`. -/
theorem C2_transcribe_dedup_in_flight_witness :
    (transcribeHandler (fun _ => "") "u"
        ⟨some "https://youtu.be/abc123", "local", "general", "whisper", none, false⟩
        ⟨[("abc123",
            ⟨"abc123", "pending", some "local", some "general", some "whisper",
             none, some false⟩)], ["abc123"]⟩).1 =
      get_video_id (fun _ => "") "https://youtu.be/abc123" ∧
    (transcribeHandler (fun _ => "") "u"
        ⟨some "https://youtu.be/abc123", "local", "general", "whisper", none, false⟩
        ⟨[("abc123",
            ⟨"abc123", "pending", some "local", some "general", some "whisper",
             none, some false⟩)], ["abc123"]⟩).2 =
      ⟨[("abc123",
          ⟨"abc123", "pending", some "local", some "general", some "whisper",
           none, some false⟩)], ["abc123"]⟩ :=
  C2_transcribe_dedup_in_flight (fun _ => "") "u" "https://youtu.be/abc123"
    ⟨some "https://youtu.be/abc123", "local", "general", "whisper", none, false⟩
    ⟨[("abc123",
        ⟨"abc123", "pending", some "local", some "general", some "whisper",
         none, some false⟩)], ["abc123"]⟩
    ⟨"abc123", "pending", some "local", some "general", some "whisper",
     none, some false⟩
    rfl (by decide) (Or.inl rfl)

/-! ## C3: the splitter is expected to preserve content exactly -/

/-- C3: on the spaCy path the merge step duplicates content.  For the
document of `"Hi. Yo."` with `max_len = 25` the output is
`["Hi.Hi. Yo."]`: the concatenation of the output lines contains strictly
more non-space characters than the input text, so no removal of inserted
breaks can reconstruct the input.  The culprit is
`current += s if not current else (current + " " + s)`, which appends
`current + " " + s` to an already non-empty `current`. -/
theorem C3_spacy_merge_duplicates :
    splitTextBySpacy spacyDocHiYo 25 "en" = ["Hi.Hi. Yo."] ∧
    spanText spacyDocHiYo = "Hi. Yo." ∧
    (removeSpacesS (String.join (splitTextBySpacy spacyDocHiYo 25 "en"))).length >
      (removeSpacesS (spanText spacyDocHiYo)).length := by
  refine ⟨by decide, by decide, by decide⟩

/-! ## C4: line-length bound -/

/-- C4 counterexample: on the spaCy path a returned line can exceed
`maxLen` even though no single token of the input exceeds it: for the
document of `"ab. cd ef gh."` with `max_len = 5` the output contains
`"cd ef gh."` of length 9 (an oversized trailing segment is emitted
whole, not hard-cut). -/
theorem C4_spacy_line_exceeds_maxLen :
    splitTextBySpacy spacyDocTwoSentences 5 "en" = ["ab.", "cd ef gh."] ∧
    "cd ef gh." ∈ splitTextBySpacy spacyDocTwoSentences 5 "en" ∧
    5 < ("cd ef gh." : String).length ∧
    (∀ t ∈ spacyDocTwoSentences, t.text.length ≤ 5) := by
  refine ⟨by decide, by decide, by decide, by decide⟩

/-- C4 (amended): on the length-based fallback path
(`robust_split_by_length`) every returned line has length at most
`maxLen`, including hard-cut oversized tokens, for every input text and
language, whenever `maxLen ≥ 1` (the source diverges for `maxLen = 0`);
on the spaCy path the bound does not hold. -/
theorem C4_fallback_length_bound (text : String) (maxLen : Nat) (lang : String)
    (h : 1 ≤ maxLen) :
    ∀ l ∈ robustSplitByLength text maxLen lang, l.length ≤ maxLen := by
  intro l hl
  unfold robustSplitByLength at hl
  rcases List.mem_map.mp hl with ⟨c, hc, rfl⟩
  exact robustCore_le text.toList maxLen lang h c hc

/-- C4 witness: the bound at a concrete input. -/
theorem C4_fallback_length_bound_witness :
    1 ≤ 3 ∧ ∀ l ∈ robustSplitByLength "abcdefgh" 3 "zh", l.length ≤ 3 :=
  ⟨by decide, C4_fallback_length_bound "abcdefgh" 3 "zh" (by decide)⟩

/-! ## C5: retry executor on an always-failing operation -/

/-- C5: when the wrapped operation fails on every attempt, both the audio
download and the transcription API call perform exactly 3 attempts, sleep
`2 * attemptNumber` seconds only between consecutive attempts (after
attempts 1 and 2, never before the first), and finally raise a fatal
error carrying the last failure's detail. -/
theorem C5_retry_exhaustion (op : Nat → Except String String)
    (err : Nat → String) (h : ∀ i, i < 3 → op i = .error (err i)) :
    downloadAudioRetry op =
      ([.attempt 0, .sleep 2, .attempt 1, .sleep 4, .attempt 2],
       .error ("音频下载最终失败: " ++ err 2)) ∧
    transcribeApiRetry op =
      ([.attempt 0, .sleep 2, .attempt 1, .sleep 4, .attempt 2],
       .error ("API 最终返回错误: " ++ err 2)) := by
  have h0 := h 0 (by omega)
  have h1 := h 1 (by omega)
  have h2 := h 2 (by omega)
  have hr : List.range 3 = [0, 1, 2] := rfl
  constructor <;>
    simp [downloadAudioRetry, transcribeApiRetry, hr, retryGo, h0, h1, h2]

/-- C5 witness: the retry executors at a concretely always-failing
operation. -/
theorem C5_retry_exhaustion_witness :
    (∀ i, i < 3 →
      (fun _ : Nat => (Except.error "boom" : Except String String)) i =
        .error ((fun _ : Nat => "boom") i)) ∧
    downloadAudioRetry (fun _ => .error "boom") =
      ([.attempt 0, .sleep 2, .attempt 1, .sleep 4, .attempt 2],
       .error ("音频下载最终失败: " ++ "boom")) ∧
    transcribeApiRetry (fun _ => .error "boom") =
      ([.attempt 0, .sleep 2, .attempt 1, .sleep 4, .attempt 2],
       .error ("API 最终返回错误: " ++ "boom")) :=
  ⟨fun _ _ => rfl,
   (C5_retry_exhaustion (fun _ => .error "boom") (fun _ => "boom")
     (fun _ _ => rfl)).1,
   (C5_retry_exhaustion (fun _ => .error "boom") (fun _ => "boom")
     (fun _ _ => rfl)).2⟩

/-! ## C6: subtitle time invariants -/

/-- Helper: `round(x, 2)` is monotone. -/
theorem round2_mono {a b : ℚ} (h : a ≤ b) : round2 a ≤ round2 b := by
  unfold round2
  have h1 : round (100 * a) ≤ round (100 * b) := by
    rw [round_eq, round_eq]
    exact Int.floor_mono (by linarith)
  have h2 : ((round (100 * a) : ℤ) : ℚ) ≤ ((round (100 * b) : ℤ) : ℚ) := by
    exact_mod_cast h1
  linarith

/-- Helper: the word-consumption loop keeps `last_end` non-decreasing and
inside the bound, preserves the word-state invariant on the remaining
words, and yields a `part_start` between the incoming `last_end` and the
final `last_end`. -/
theorem consumeWords_spec (target : Nat) :
    ∀ (ws : List SWord) (lastEnd hi : ℚ) (acc : Nat) (ps : Option ℚ),
      WordsSt hi lastEnd ws →
      lastEnd ≤ (consumeWords target ws lastEnd acc ps).2.1 ∧
      (consumeWords target ws lastEnd acc ps).2.1 ≤ hi ∧
      WordsSt hi (consumeWords target ws lastEnd acc ps).2.1
        (consumeWords target ws lastEnd acc ps).2.2 ∧
      (∀ p0, ps = some p0 → (consumeWords target ws lastEnd acc ps).1 = some p0) ∧
      (ps = none →
        ∀ p, (consumeWords target ws lastEnd acc ps).1 = some p →
          lastEnd ≤ p ∧ p ≤ (consumeWords target ws lastEnd acc ps).2.1) := by
  intro ws
  induction ws with
  | nil =>
    intro lastEnd hi acc ps hst
    refine ⟨le_refl _, hst.1, hst, ?_, ?_⟩
    · intro p0 hp0
      simp [consumeWords, hp0]
    · intro hn p hp
      simp [consumeWords, hn] at hp
  | cons w rest ih =>
    intro lastEnd hi acc ps hst
    have hw := hst.2.1 w (List.mem_cons_self w rest)
    have hpair := List.pairwise_cons.mp hst.2.2
    have hrestSame : WordsSt hi lastEnd rest :=
      ⟨hst.1, fun v hv => hst.2.1 v (List.mem_cons_of_mem w hv), hpair.2⟩
    have hrestNew : WordsSt hi w.stop rest :=
      ⟨hw.2.2.1,
       fun v hv =>
         ⟨(hst.2.1 v (List.mem_cons_of_mem w hv)).1,
          (hst.2.1 v (List.mem_cons_of_mem w hv)).2.1,
          (hst.2.1 v (List.mem_cons_of_mem w hv)).2.2.1,
          hpair.1 v hv⟩,
       hpair.2⟩
    by_cases hcl : (lowerS (pyStripS w.word)).length = 0
    · simp only [consumeWords, if_pos hcl]
      exact ih lastEnd hi acc ps hrestSame
    · by_cases htg : target ≤ acc + (lowerS (pyStripS w.word)).length
      · simp only [consumeWords, if_neg hcl, if_pos htg]
        refine ⟨hw.2.2.2, hw.2.2.1, hrestNew, ?_, ?_⟩
        · intro p0 hp0
          rw [hp0]
          rfl
        · intro hn p hp
          rw [hn] at hp
          simp only [Option.getD_none] at hp
          obtain rfl := Option.some.inj hp
          exact ⟨le_max_right _ _, max_le hw.1 hw.2.2.2⟩
      · simp only [consumeWords, if_neg hcl, if_neg htg]
        have hrec := ih w.stop hi (acc + (lowerS (pyStripS w.word)).length)
          (some (ps.getD (max w.start lastEnd))) hrestNew
        refine ⟨le_trans hw.2.2.2 hrec.1, hrec.2.1, hrec.2.2.1, ?_, ?_⟩
        · intro p0 hp0
          rw [hp0] at hrec ⊢
          exact hrec.2.2.2.1 p0 rfl
        · intro hn p hp
          rw [hn] at hrec hp ⊢
          have := hrec.2.2.2.1 (max w.start lastEnd) rfl
          rw [this] at hp
          obtain rfl := Option.some.inj hp
          constructor
          · exact le_max_right _ _
          · exact le_trans (max_le hw.1 hw.2.2.2) hrec.1

/-- Helper: every line the per-part alignment emits starts no earlier than
the incoming `last_end`, no later than the bound, satisfies
`start ≤ end`, and the emitted starts are non-decreasing. -/
theorem alignGo_spec (hi : ℚ) :
    ∀ (parts : List String) (ws : List SWord) (lastEnd : ℚ),
      WordsSt hi lastEnd ws →
      (∀ l ∈ alignGo parts ws lastEnd,
        round2 lastEnd ≤ l.start ∧ l.start ≤ round2 hi ∧ l.start ≤ l.stop) ∧
      List.Chain' (fun a b => a.start ≤ b.start) (alignGo parts ws lastEnd) := by
  intro parts
  induction parts with
  | nil =>
    intro ws lastEnd hst
    simp [alignGo]
  | cons p parts ih =>
    intro ws lastEnd hst
    by_cases hpc : (partClean p).length = 0
    · simp only [alignGo, if_pos hpc]
      exact ih ws lastEnd hst
    · have hcs := consumeWords_spec (partClean p).length ws lastEnd hi 0 none hst
      set r := consumeWords (partClean p).length ws lastEnd 0 none with hrdef
      have hs1 : lastEnd ≤ r.1.getD r.2.1 ∧ r.1.getD r.2.1 ≤ r.2.1 := by
        cases hr1 : r.1 with
        | none => simp [hcs.1]
        | some pv =>
          have := hcs.2.2.2.2 rfl pv hr1
          simpa [hr1] using this
      have hsT1 : round2 lastEnd ≤ round2 (r.1.getD r.2.1) := round2_mono hs1.1
      have hsT2 : round2 (r.1.getD r.2.1) ≤ round2 r.2.1 := round2_mono hs1.2
      have hsT3 : round2 r.2.1 ≤ round2 hi := round2_mono hcs.2.1
      have hihr := ih r.2.2 r.2.1 hcs.2.2.1
      have hmono : round2 lastEnd ≤ round2 r.2.1 := round2_mono hcs.1
      simp only [alignGo, if_neg hpc]
      rw [← hrdef]
      set sT := round2 (r.1.getD r.2.1) with hsdef
      set e0 := round2 r.2.1 with hedef
      set eT := if e0 ≤ sT then sT + 1/10 else e0 with hetdef
      have hse : sT ≤ eT := by
        rw [hetdef]
        by_cases hse0 : e0 ≤ sT
        · rw [if_pos hse0]; linarith
        · rw [if_neg hse0]; push_neg at hse0; linarith
      by_cases hfil : isHallucination p (eT - sT) = true
      · rw [if_pos hfil]
        refine ⟨?_, hihr.2⟩
        intro l hl
        have := hihr.1 l hl
        exact ⟨le_trans hmono this.1, this.2.1, this.2.2⟩
      · rw [if_neg hfil]
        constructor
        · intro l hl
          rcases List.mem_cons.mp hl with rfl | hmem
          · exact ⟨hsT1, le_trans hsT2 hsT3, hse⟩
          · have := hihr.1 l hmem
            exact ⟨le_trans hmono this.1, this.2.1, this.2.2⟩
        · rw [List.chain'_cons']
          refine ⟨?_, hihr.2⟩
          intro y hy
          have hym := List.mem_of_mem_head? hy
          exact le_trans hsT2 (hihr.1 y hym).1

/-- Helper: the lines of one recognizer segment start inside
`[round2 seg.start, round2 seg.stop]`, satisfy `start ≤ end`, and are in
non-decreasing start order. -/
theorem segLines_spec (split : String → List String) (seg : SSeg)
    (h : SegOK seg) :
    (∀ l ∈ segLines split seg,
      round2 seg.start ≤ l.start ∧ l.start ≤ round2 seg.stop ∧
        l.start ≤ l.stop) ∧
    List.Chain' (fun a b => a.start ≤ b.start) (segLines split seg) := by
  unfold segLines
  by_cases ht : pyStripS seg.text = ""
  · simp [ht]
  · rw [if_neg ht]
    by_cases hp : (split (pyStripS seg.text)).length ≤ 1 ∨ seg.words = []
    · rw [if_pos hp]
      refine ⟨?_, List.chain'_singleton _⟩
      intro l hl
      rcases List.mem_singleton.mp hl with rfl
      exact ⟨le_refl _, round2_mono h.1, round2_mono h.1⟩
    · rw [if_neg hp]
      have hws : WordsSt seg.stop seg.start seg.words := by
        refine ⟨h.1, ?_, h.2.2⟩
        intro w hw
        have := h.2.1 w hw
        exact ⟨this.1, le_trans this.1 this.2.2, this.2.2,
          le_trans this.2.1 this.1⟩
      exact alignGo_spec seg.stop (split (pyStripS seg.text)) seg.words
        seg.start hws

/-- Helper: over a time-ordered list of well-formed segments, all lines
satisfy `start ≤ end`, the whole emitted sequence is in non-decreasing
start order, and every line starts no earlier than the first segment. -/
theorem transcribeLocally_spec (split : String → List String) :
    ∀ segs : List SSeg, (∀ s ∈ segs, SegOK s) →
      List.Chain' (fun a b : SSeg => a.stop ≤ b.start) segs →
      (∀ l ∈ transcribeLocally split segs, l.start ≤ l.stop) ∧
      List.Chain' (fun a b : SubtitleLine => a.start ≤ b.start)
        (transcribeLocally split segs) ∧
      (∀ s0, segs.head? = some s0 →
        ∀ l ∈ transcribeLocally split segs, round2 s0.start ≤ l.start) := by
  intro segs
  induction segs with
  | nil =>
    intro _ _
    simp [transcribeLocally]
  | cons seg rest ih =>
    intro h1 h2
    have hseg := segLines_spec split seg (h1 seg (List.mem_cons_self seg rest))
    have hOK : SegOK seg := h1 seg (List.mem_cons_self seg rest)
    have ihr := ih (fun s hs => h1 s (List.mem_cons_of_mem seg hs))
      (List.Chain'.tail h2)
    have hT : transcribeLocally split (seg :: rest) =
        segLines split seg ++ transcribeLocally split rest := by
      simp [transcribeLocally]
    rw [hT]
    have hlow : ∀ l ∈ transcribeLocally split rest, round2 seg.stop ≤ l.start := by
      cases rest with
      | nil =>
        intro l hl
        simp [transcribeLocally] at hl
      | cons s0 rest' =>
        intro l hl
        have hrel : seg.stop ≤ s0.start := (List.chain'_cons.mp h2).1
        exact le_trans (round2_mono hrel) (ihr.2.2 s0 rfl l hl)
    refine ⟨?_, ?_, ?_⟩
    · intro l hl
      rcases List.mem_append.mp hl with hm | hm
      · exact (hseg.1 l hm).2.2
      · exact ihr.1 l hm
    · rw [List.chain'_append]
      refine ⟨hseg.2, ihr.2.1, ?_⟩
      intro x hx y hy
      have hxm := List.mem_of_mem_getLast? hx
      have hym := List.mem_of_mem_head? hy
      exact le_trans (hseg.1 x hxm).2.1 (hlow y hym)
    · intro s0 hs0 l hl
      obtain rfl := Option.some.inj hs0
      rcases List.mem_append.mp hl with hm | hm
      · exact (hseg.1 l hm).1
      · exact le_trans (round2_mono hOK.1) (hlow l hm)

/-- C6 counterexample: the passthrough branch of `_transcribe_locally`
(no split or no word timestamps) copies the segment times unchanged: a
zero-length recognizer segment yields a zero-length subtitle line — the
degenerate `end <= start` is NOT bumped to a positive duration there. -/
theorem C6_passthrough_not_bumped :
    transcribeLocally (fun s => robustSplitByLength s 25 "zh")
        [⟨5, 5, "hi", []⟩] = [⟨5, 5, "hi"⟩] ∧
    (∀ l ∈ transcribeLocally (fun s => robustSplitByLength s 25 "zh")
        [⟨5, 5, "hi", []⟩], ¬ l.start < l.stop) := by
  have hstrip : pyStripS "hi" = "hi" := by decide
  have hsplit : robustSplitByLength "hi" 25 "zh" = ["hi"] := by decide
  have h5 : round2 (5 : ℚ) = 5 := by
    unfold round2
    norm_num
  have heq : transcribeLocally (fun s => robustSplitByLength s 25 "zh")
      [⟨5, 5, "hi", []⟩] = [⟨5, 5, "hi"⟩] := by
    simp [transcribeLocally, segLines, hstrip, hsplit, h5]
  refine ⟨heq, ?_⟩
  rw [heq]
  intro l hl
  rcases List.mem_singleton.mp hl with rfl
  simp

/-- C6 (amended): for every split function and every recognizer output
with non-degenerate, time-ordered segments whose word timestamps lie in
the segment window with non-decreasing ends, every produced SubtitleLine
satisfies `start <= end` and the lines are emitted in non-decreasing
start order; on the word-aligned path a degenerate `end <= start` is
bumped to `start + 0.1`, while the passthrough branch copies the segment
times unchanged (so its lines are non-degenerate only because the segment
is). -/
theorem C6_transcribe_locally_time_order (split : String → List String)
    (segs : List SSeg) (h1 : ∀ s ∈ segs, SegOK s)
    (h2 : List.Chain' (fun a b : SSeg => a.stop ≤ b.start) segs) :
    (∀ l ∈ transcribeLocally split segs, l.start ≤ l.stop) ∧
    List.Chain' (fun a b : SubtitleLine => a.start ≤ b.start)
      (transcribeLocally split segs) :=
  ⟨(transcribeLocally_spec split segs h1 h2).1,
   (transcribeLocally_spec split segs h1 h2).2.1⟩

/-- C6 witness: a concrete two-segment recognizer output, the first
segment word-aligned into two parts, the second passed through. -/
theorem C6_transcribe_locally_time_order_witness :
    (∀ s ∈ ([⟨0, 3, "ab", [⟨0, 1, "a"⟩, ⟨1, 2, "b"⟩]⟩, ⟨3, 5, "cd", []⟩] :
        List SSeg), SegOK s) ∧
    List.Chain' (fun a b : SSeg => a.stop ≤ b.start)
      ([⟨0, 3, "ab", [⟨0, 1, "a"⟩, ⟨1, 2, "b"⟩]⟩, ⟨3, 5, "cd", []⟩] :
        List SSeg) ∧
    ((∀ l ∈ transcribeLocally (fun s => robustSplitByLength s 1 "zh")
        [⟨0, 3, "ab", [⟨0, 1, "a"⟩, ⟨1, 2, "b"⟩]⟩, ⟨3, 5, "cd", []⟩],
        l.start ≤ l.stop) ∧
     List.Chain' (fun a b : SubtitleLine => a.start ≤ b.start)
       (transcribeLocally (fun s => robustSplitByLength s 1 "zh")
         [⟨0, 3, "ab", [⟨0, 1, "a"⟩, ⟨1, 2, "b"⟩]⟩, ⟨3, 5, "cd", []⟩])) := by
  have hok : ∀ s ∈ ([⟨0, 3, "ab", [⟨0, 1, "a"⟩, ⟨1, 2, "b"⟩]⟩,
      ⟨3, 5, "cd", []⟩] : List SSeg), SegOK s := by
    simp only [List.forall_mem_cons, List.forall_mem_nil, SegOK,
      List.pairwise_cons, List.Pairwise.nil, List.not_mem_nil]
    norm_num
  have hch : List.Chain' (fun a b : SSeg => a.stop ≤ b.start)
      ([⟨0, 3, "ab", [⟨0, 1, "a"⟩, ⟨1, 2, "b"⟩]⟩, ⟨3, 5, "cd", []⟩] :
        List SSeg) :=
    List.Chain.cons (by norm_num) List.Chain.nil
  exact ⟨hok, hch,
    C6_transcribe_locally_time_order (fun s => robustSplitByLength s 1 "zh")
      [⟨0, 3, "ab", [⟨0, 1, "a"⟩, ⟨1, 2, "b"⟩]⟩, ⟨3, 5, "cd", []⟩] hok hch⟩

/-! ## C7: the hallucination filter as an if-and-only-if -/

/-- Helper: the `if`/`elif` decision collapses to a disjunction. -/
theorem isHallucination_eq_or (part : String) (d : ℚ) :
    isHallucination part d =
      ((isExactBlacklisted (stripPunctLower part) && decide (5 < d)) ||
       (isSpecificPattern (stripPunctLower part) &&
         (decide (10 < d) && decide ((stripPunctLower part).length < 35)))) := by
  unfold isHallucination
  cases h1 : (isExactBlacklisted (stripPunctLower part) && decide (5 < d)) <;>
    cases h2 : (isSpecificPattern (stripPunctLower part) &&
      (decide (10 < d) && decide ((stripPunctLower part).length < 35))) <;>
    simp [h1, h2]

/-- C7: a segment is filtered as a hallucination iff either (a) its
space/punctuation-stripped, case-folded text exactly equals a blacklist
phrase and its duration exceeds 5 seconds, or (b) the stripped text
contains one of the distinctive fragments, the duration exceeds 10
seconds, and the stripped length is below 35; in particular the
blacklisted phrase `点赞` is dropped at duration 6.0 and kept at 2.0. -/
theorem C7_hallucination_filter_iff :
    (∀ (part : String) (duration : ℚ),
      isHallucination part duration = true ↔
        ((isExactBlacklisted (stripPunctLower part) = true ∧ 5 < duration) ∨
         (isSpecificPattern (stripPunctLower part) = true ∧ 10 < duration ∧
           (stripPunctLower part).length < 35))) ∧
    isHallucination "点赞" 6 = true ∧
    isHallucination "点赞" 2 = false := by
  refine ⟨?_, by decide, by decide⟩
  intro part duration
  rw [isHallucination_eq_or]
  simp [Bool.or_eq_true, Bool.and_eq_true, decide_eq_true_eq, and_assoc]

/-! ## C8: translation pipeline batch retry and degradation -/

/-- Helper: each batch contributes exactly one output line per input line,
whatever the LLM returns. -/
theorem processBatch_length (ask : Nat → Option LLMDict) (n : Nat)
    (b : List TSub) : (processBatch ask n b).1.length = b.length := by
  unfold processBatch
  cases h : (passLoop ask b.length n).1 with
  | none => simp [h]
  | some f => simp [h, List.enum_length]

/-- Helper: the `range(0, len, batch_size)` chunking partitions the list. -/
theorem chunksGo_sum_length (bs : Nat) (hbs : 1 ≤ bs) :
    ∀ (fuel : Nat) (l : List TSub), l.length ≤ fuel →
      ((chunksGo bs fuel l).map List.length).sum = l.length := by
  intro fuel
  induction fuel with
  | zero =>
    intro l hl
    cases l with
    | nil => simp [chunksGo]
    | cons a t => simp at hl
  | succ fuel ih =>
    intro l hl
    cases l with
    | nil => simp [chunksGo]
    | cons a t =>
      simp only [chunksGo, List.map_cons, List.sum_cons]
      rw [ih ((a :: t).drop bs)
        (by simp only [List.length_drop, List.length_cons] at hl ⊢; omega)]
      simp only [List.length_take, List.length_drop, List.length_cons]
      omega

/-- Helper: the sequential batch fold preserves total length. -/
theorem translateFold_length (ask : Nat → Option LLMDict)
    (cs : List (List TSub)) :
    ∀ acc : List TSub × Nat,
      ((cs.foldl
        (fun acc b =>
          let r := processBatch ask acc.2 b
          (acc.1 ++ r.1, r.2)) acc).1).length =
        acc.1.length + (cs.map List.length).sum := by
  induction cs with
  | nil => intro acc; simp
  | cons b cs ih =>
    intro acc
    simp only [List.foldl_cons, List.map_cons, List.sum_cons]
    rw [ih]
    simp [processBatch_length]
    omega

/-- C8: (i) the pipeline always emits one line per input line — a failing
batch never blocks completion of the remaining batches; (ii) each pass
makes at most 2 LLM calls (1 retry) — a pass retries exactly when the
structured result has fewer keys than the batch; (iii) if both faithful
attempts fail, every line of the batch gets the empty translation and the
loop moves to the next batch; (iv) if the faithful pass succeeds and both
expressive attempts fail, the faithful dict is used as-is for the batch. -/
theorem C8_translation_batch_policy :
    (∀ (ask : Nat → Option LLMDict) (bs : Nat) (subs : List TSub), 1 ≤ bs →
      (translateBatches ask bs subs).1.length = subs.length) ∧
    (∀ (ask : Nat → Option LLMDict) (need n : Nat),
      (passLoop ask need n).2 ≤ n + 2) ∧
    (∀ (ask : Nat → Option LLMDict) (n : Nat) (batch : List TSub),
      checkRes batch.length (ask n) = none →
      checkRes batch.length (ask (n + 1)) = none →
      processBatch ask n batch =
        (batch.map fun s => { s with translation := some "" }, n + 2)) ∧
    (∀ (ask : Nat → Option LLMDict) (n : Nat) (batch : List TSub) (f : LLMDict),
      checkRes batch.length (ask n) = some f →
      checkRes batch.length (ask (n + 1)) = none →
      checkRes batch.length (ask (n + 2)) = none →
      processBatch ask n batch =
        ((batch.enum.map fun sj =>
            { sj.2 with translation := some (pickTranslation f sj.1) }), n + 3)) := by
  refine ⟨?_, ?_, ?_, ?_⟩
  · intro ask bs subs hbs
    unfold translateBatches chunks
    rw [translateFold_length]
    rw [chunksGo_sum_length bs hbs subs.length subs (Nat.le_refl _)]
    simp
  · intro ask need n
    unfold passLoop
    cases h1 : checkRes need (ask n) with
    | some d => simp
    | none =>
      cases h2 : checkRes need (ask (n + 1)) with
      | some d => simp
      | none => simp
  · intro ask n batch h1 h2
    unfold processBatch passLoop
    rw [h1, h2]
  · intro ask n batch f h1 h2 h3
    unfold processBatch passLoop
    rw [h1]
    simp only
    rw [h2]
    have : n + 1 + 1 = n + 2 := rfl
    rw [this, h3]
    rfl

/-- C8 witness: the four parts at concrete LLM behaviours. -/
theorem C8_translation_batch_policy_witness :
    (1 ≤ 2 ∧ (translateBatches (fun _ => none) 2
        [⟨"a", none⟩, ⟨"b", none⟩, ⟨"c", none⟩]).1.length = 3) ∧
    (passLoop (fun _ => none) 1 0).2 ≤ 0 + 2 ∧
    (checkRes 1 ((fun _ : Nat => (none : Option LLMDict)) 0) = none ∧
     processBatch (fun _ => none) 0 [⟨"a", none⟩] =
        ([(⟨"a", none⟩ : TSub)].map fun s => { s with translation := some "" },
         0 + 2)) ∧
    (checkRes 1 ((fun i : Nat =>
        if i = 0 then some [("0", JVal.prim "x")] else none) 0) =
          some [("0", JVal.prim "x")] ∧
     processBatch (fun i =>
        if i = 0 then some [("0", JVal.prim "x")] else none) 0 [⟨"a", none⟩] =
        (([(⟨"a", none⟩ : TSub)].enum.map fun sj =>
            { sj.2 with
              translation := some (pickTranslation [("0", JVal.prim "x")] sj.1) }),
         0 + 3)) := by
  refine ⟨⟨by decide, ?_⟩, ?_, ⟨rfl, ?_⟩, ⟨rfl, ?_⟩⟩
  · exact C8_translation_batch_policy.1 (fun _ => none) 2
      [⟨"a", none⟩, ⟨"b", none⟩, ⟨"c", none⟩] (by decide)
  · exact C8_translation_batch_policy.2.1 (fun _ => none) 1 0
  · exact C8_translation_batch_policy.2.2.1 (fun _ => none) 0 [⟨"a", none⟩]
      rfl rfl
  · exact C8_translation_batch_policy.2.2.2
      (fun i => if i = 0 then some [("0", JVal.prim "x")] else none) 0
      [⟨"a", none⟩] [("0", JVal.prim "x")] rfl rfl rfl

/-! ## C9: empty recognition result -/

/-- C9 counterexample: with both cache tiers empty and a recognizer
returning no content, the job errors out and the final tier is untouched,
but the raw tier IS written (with the empty subtitle list):
`_save_raw_cache` runs before the empty-result check, contradicting
"nothing is written to either cache tier". -/
theorem C9_raw_tier_written_on_empty :
    (processTask ⟨"local", "general", "whisper", none⟩ "vidE" none none
      ([], some "en") id).rawWritten ≠ none ∧
    processTask ⟨"local", "general", "whisper", none⟩ "vidE" none none
      ([], some "en") id =
      ⟨.errored emptyResultMsg, some ⟨"vidE", some "en", "general", "whisper", []⟩,
       none⟩ := by
  refine ⟨by decide, by decide⟩

/-- C9 (amended): when neither cache gate hits and the recognizer returns
no usable content, the job ends in the error state with the
human-readable empty-result message and the final tier is not written;
the raw tier, however, is written with the empty subtitle list — a record
that the raw-cache read gate never serves (it requires non-empty stored
subtitles). -/
theorem C9_empty_result_flow (cfg : TaskCfg) (videoId : String)
    (fin : Option CacheDoc) (raw : Option RawRec) (lang : Option String)
    (translate : List SubtitleLine → List SubtitleLine)
    (hfin : finalGate cfg fin = false) (hraw : rawGate cfg raw = false) :
    processTask cfg videoId fin raw ([], lang) translate =
      ⟨.errored emptyResultMsg,
       some ⟨videoId, lang, cfg.domain, cfg.engine, []⟩, none⟩ ∧
    (∀ cfg' : TaskCfg,
      rawGate cfg' (some ⟨videoId, lang, cfg.domain, cfg.engine, []⟩) = false) := by
  constructor
  · unfold processTask
    rw [hfin]
    simp only [if_false, Bool.false_eq_true]
    cases raw with
    | none => simp
    | some r => simp [hraw]
  · intro cfg'
    simp [rawGate]

/-- C9 witness: the flow at a concrete empty recognition. -/
theorem C9_empty_result_flow_witness :
    finalGate ⟨"local", "general", "whisper", some "en"⟩ none = false ∧
    rawGate ⟨"local", "general", "whisper", some "en"⟩ none = false ∧
    (processTask ⟨"local", "general", "whisper", some "en"⟩ "vidW" none none
        ([], none) id =
      ⟨.errored emptyResultMsg, some ⟨"vidW", none, "general", "whisper", []⟩,
       none⟩ ∧
     ∀ cfg' : TaskCfg,
       rawGate cfg' (some ⟨"vidW", none, "general", "whisper", []⟩) = false) :=
  ⟨rfl, rfl,
   C9_empty_result_flow ⟨"local", "general", "whisper", some "en"⟩ "vidW"
     none none none id rfl rfl⟩

/-! ## C10: the upload endpoint's keyword mismatch -/

/-- C10: the `/upload` handler calls `add_upload_task` with a `domain`
keyword that the method's signature does not declare, so Python raises
`TypeError` for every uploaded file before the body runs: the handler
errors and no upload task is ever enqueued. -/
theorem C10_upload_domain_kwarg_type_error (taskId : String)
    (st : UploadQueueState) :
    uploadFileHandler taskId st =
      .error "TypeError: add_upload_task() got an unexpected keyword argument: domain" ∧
    addUploadTaskParams.contains "domain" = false ∧
    kwBindOk addUploadTaskParams uploadCallKeywords = false := by
  have h : kwBindOk addUploadTaskParams uploadCallKeywords = false := by decide
  refine ⟨?_, by decide, h⟩
  unfold uploadFileHandler
  rw [h]
  simp

end WhisperServer
